import Mathlib

/-!
Verification development for the competitive-research pipeline in `tool.py`
(class `AICompetitiveResearch`).  Python values that originate from JSON
(`json.loads` results, as well as the dict/list/string values flowing through
the research-result mapping) are modelled by the inductive type `Json`.
Fallible Python code (statements that can raise) is modelled with
`Except Unit`, where `.error ()` stands for a raised exception.  Numbers are
modelled as integers (no claim depends on fractional values).  External
effects (the Serper HTTP search, the LangChain agent executor, the direct
LLM call, the filesystem write) are modelled as oracles passed explicitly,
indexed by call count where the order of calls is observable.
-/

/-- A JSON-like Python value: the result of `json.loads`, and more generally
any Python value built from dicts, lists, strings, ints, bools and `None`.
Objects are ordered key/value lists (Python dicts preserve insertion order;
duplicate keys from a JSON text keep the last binding). -/
inductive Json where
  | null
  | bool (b : Bool)
  | num (n : Int)
  | str (s : String)
  | arr (xs : List Json)
  | obj (kvs : List (String × Json))

mutual

/-- Structural equality test on `Json` values (no deriving handler exists for
the nested inductive, so it is written out together with its list forms). -/
def Json.eqb : Json → Json → Bool
  | .str x, .str y => x == y
  | .num x, .num y => x == y
  | .bool x, .bool y => x == y
  | .null, .null => true
  | .arr xs, .arr ys => Json.eqbElems xs ys
  | .obj xs, .obj ys => Json.eqbEntries xs ys
  | _, _ => false

/-- Structural equality test on element lists. -/
def Json.eqbElems : List Json → List Json → Bool
  | [], [] => true
  | _ :: _, [] => false
  | [], _ :: _ => false
  | x :: xs, y :: ys => Json.eqb x y && Json.eqbElems xs ys

/-- Structural equality test on key/value lists. -/
def Json.eqbEntries : List (String × Json) → List (String × Json) → Bool
  | [], [] => true
  | _ :: _, [] => false
  | [], _ :: _ => false
  | (xk, xv) :: xs, (yk, yv) :: ys => xk == yk && (Json.eqb xv yv && Json.eqbEntries xs ys)

end

instance : BEq Json := ⟨Json.eqb⟩

mutual

theorem Json.eq_of_eqb : ∀ {a b : Json}, Json.eqb a b = true → a = b
  | .null, .null, _ => rfl
  | .bool _, .bool _, h => by simpa [Json.eqb] using h
  | .num _, .num _, h => by simpa [Json.eqb] using h
  | .str _, .str _, h => by simpa [Json.eqb] using h
  | .arr xs, .arr ys, h => by
    rw [Json.eqElems_of_eqb (a := xs) (b := ys) (by simpa [Json.eqb] using h)]
  | .obj xs, .obj ys, h => by
    rw [Json.eqEntries_of_eqb (a := xs) (b := ys) (by simpa [Json.eqb] using h)]

theorem Json.eqElems_of_eqb : ∀ {a b : List Json}, Json.eqbElems a b = true → a = b
  | [], [], _ => rfl
  | x :: xs, y :: ys, h => by
    simp only [Json.eqbElems, Bool.and_eq_true] at h
    rw [Json.eq_of_eqb h.1, Json.eqElems_of_eqb h.2]

theorem Json.eqEntries_of_eqb :
    ∀ {a b : List (String × Json)}, Json.eqbEntries a b = true → a = b
  | [], [], _ => rfl
  | (xk, xv) :: xs, (yk, yv) :: ys, h => by
    simp only [Json.eqbEntries, Bool.and_eq_true, beq_iff_eq] at h
    rw [h.1, Json.eq_of_eqb h.2.1, Json.eqEntries_of_eqb h.2.2]

end

mutual

theorem Json.eqb_refl : ∀ (a : Json), Json.eqb a a = true
  | .null => rfl
  | .bool _ => by simp [Json.eqb]
  | .num _ => by simp [Json.eqb]
  | .str _ => by simp [Json.eqb]
  | .arr xs => by simpa [Json.eqb] using Json.eqbElems_refl xs
  | .obj kvs => by simpa [Json.eqb] using Json.eqbEntries_refl kvs

theorem Json.eqbElems_refl : ∀ (a : List Json), Json.eqbElems a a = true
  | [] => rfl
  | x :: xs => by
    simp only [Json.eqbElems, Bool.and_eq_true]
    exact ⟨Json.eqb_refl x, Json.eqbElems_refl xs⟩

theorem Json.eqbEntries_refl : ∀ (a : List (String × Json)), Json.eqbEntries a a = true
  | [] => rfl
  | (k, v) :: xs => by
    simp only [Json.eqbEntries, Bool.and_eq_true, beq_iff_eq]
    exact ⟨trivial, Json.eqb_refl v, Json.eqbEntries_refl xs⟩

end

instance : DecidableEq Json := fun a b =>
  decidable_of_iff (Json.eqb a b = true)
    ⟨fun h => Json.eq_of_eqb h, fun h => h ▸ Json.eqb_refl a⟩

instance : LawfulBEq Json where
  eq_of_beq := Json.eq_of_eqb
  rfl := Json.eqb_refl _

/-- Last binding of key `k` in an ordered dict, if any.  `json.loads` keeps
the last occurrence of a duplicated key, and Python `dict` lookup returns it. -/
def jsonLookup (kvs : List (String × Json)) (k : String) : Option Json :=
  (kvs.reverse.find? (fun p => p.1 == k)).map (fun p => p.2)

/-- Python `d.get(k, default)` on a dict. -/
def jsonGetD (kvs : List (String × Json)) (k : String) (d : Json) : Json :=
  (jsonLookup kvs k).getD d

/-- Python truthiness of a JSON-like value (`if link:` etc.). -/
def Json.truthy : Json → Bool
  | .null => false
  | .bool b => b
  | .num n => n != 0
  | .str s => s != ""
  | .arr xs => !xs.isEmpty
  | .obj kvs => !kvs.isEmpty

/-- Whether a Python value is hashable (usable in `x in set` / `set.add`):
dicts and lists raise `TypeError` there. -/
def Json.hashable : Json → Bool
  | .arr _ => false
  | .obj _ => false
  | _ => true

/-- Python `needle in container` for a string needle: key membership for a
dict, substring test for a string, element membership for a list, and a
`TypeError` for the remaining (non-container) values. -/
def pyContains (needle : String) : Json → Except Unit Bool
  | .obj kvs => .ok (kvs.any (fun p => p.1 == needle))
  | .str s => .ok ((s.splitOn needle).length > 1)
  | .arr xs => .ok (xs.contains (Json.str needle))
  | _ => .error ()

/-- Python `container[k]` for a string key `k`: dict lookup (`KeyError` when
absent), `TypeError` on every other value. -/
def pyIndex (j : Json) (k : String) : Except Unit Json :=
  match j with
  | .obj kvs =>
    match jsonLookup kvs k with
    | some v => .ok v
    | none => .error ()
  | _ => .error ()

/-- Python `d.get(k, default)`: only dicts have `.get` (`AttributeError`
otherwise). -/
def pyGet (j : Json) (k : String) (d : Json) : Except Unit Json :=
  match j with
  | .obj kvs => .ok (jsonGetD kvs k d)
  | _ => .error ()

/-- Python `for x in v`: elements of a list, the one-character strings of a
string, the keys of a dict; `TypeError` for non-iterables. -/
def iterElems : Json → Except Unit (List Json)
  | .arr xs => .ok xs
  | .str s => .ok (s.toList.map (fun c => Json.str (String.singleton c)))
  | .obj kvs => .ok (kvs.map (fun p => Json.str p.1))
  | _ => .error ()

/-- One extracted search source, the dict
`{'title': ..., 'link': ..., 'snippet': ...}` built by `extract_sources`. -/
structure Source where
  title : Json
  link : Json
  snippet : Json
deriving DecidableEq

/-- The source dict as a Python value (key order as in the code). -/
def Source.toJson (s : Source) : Json :=
  Json.obj [("title", s.title), ("link", s.link), ("snippet", s.snippet)]

/-- The `for result in results['organic']` loop of `extract_sources`:
`seen` is the `source_links` set (as a list of hashable values), `acc` the
`sources` list built so far.  Any raised exception is `.error ()`. -/
def extractLoop : List Json → List Json → List Source → Except Unit (List Source)
  | [], _, acc => .ok acc
  | result :: rest, seen, acc =>
    match result with
    | .obj kvs =>
      let link := jsonGetD kvs "link" (Json.str "")
      if link.truthy then
        if link.hashable then
          if seen.contains link then
            extractLoop rest seen acc
          else
            extractLoop rest (link :: seen)
              (acc ++ [⟨jsonGetD kvs "title" (Json.str "Untitled"), link,
                       jsonGetD kvs "snippet" (Json.str "")⟩])
        else
          .error ()
      else
        extractLoop rest seen acc
    | _ => .error ()

/-- Body of the `try:` block of `extract_sources`, after `json.loads`
succeeded with value `results`. -/
def extractBody (results : Json) : Except Unit (List Source) := do
  let hasOrganic ← pyContains "organic" results
  if hasOrganic then
    let organicVal ← pyIndex results "organic"
    let elems ← iterElems organicVal
    extractLoop elems [] []
  else
    pure []

/-- `extract_sources(search_results)` where `parsed` is the outcome of
`json.loads(search_results)` (`none` = parse exception).  The surrounding
`except Exception` turns every raised exception into the empty list. -/
def extract_sources (parsed : Option Json) : List Source :=
  match parsed with
  | none => []
  | some results =>
    match extractBody results with
    | .ok sources => sources
    | .error _ => []

example : extract_sources (some (Json.obj [])) = [] := by decide

example :
    extract_sources (some (Json.obj [("organic", Json.arr
      [Json.obj [("link", Json.str "u1"), ("title", Json.str "T1")],
       Json.obj [("link", Json.str "u1"), ("title", Json.str "T2")],
       Json.obj [("link", Json.str "u2")]])])) =
    [⟨Json.str "T1", Json.str "u1", Json.str ""⟩,
     ⟨Json.str "Untitled", Json.str "u2", Json.str ""⟩] := by decide

/-- Escaping of one character inside a JSON string literal, as `json.dumps`
does for the characters that can occur in this pipeline's queries. -/
def pyEscapeChar (c : Char) : String :=
  if c = '"' then "\\\""
  else if c = '\\' then "\\\\"
  else if c = '\n' then "\\n"
  else if c = '\t' then "\\t"
  else if c = '\r' then "\\r"
  else String.singleton c

/-- JSON string-literal escaping of a whole string. -/
def pyEscape (s : String) : String :=
  String.join (s.toList.map pyEscapeChar)

mutual

/-- `json.dumps` with its default separators (`", "` and `": "`). -/
def pyDumps : Json → String
  | .null => "null"
  | .bool true => "true"
  | .bool false => "false"
  | .num n => toString n
  | .str s => "\"" ++ pyEscape s ++ "\""
  | .arr xs => "[" ++ String.intercalate ", " (pyDumpsList xs) ++ "]"
  | .obj kvs => "\x7b" ++ String.intercalate ", " (pyDumpsPairs kvs) ++ "\x7d"

/-- `json.dumps` of the elements of a list. -/
def pyDumpsList : List Json → List String
  | [] => []
  | x :: xs => pyDumps x :: pyDumpsList xs

/-- `json.dumps` of the entries of a dict. -/
def pyDumpsPairs : List (String × Json) → List String
  | [] => []
  | (k, v) :: xs => ("\"" ++ pyEscape k ++ "\": " ++ pyDumps v) :: pyDumpsPairs xs

end

/-- The outbound HTTP POST issued by `web_search` (URL, serialized body,
headers), everything observable about the request. -/
structure HttpRequest where
  url : String
  payload : String
  headers : List (String × String)
deriving DecidableEq

/-- The request built by `web_search(query)`: fixed endpoint, body
`json.dumps({"q": query + " AI offerings case studies", "num": 7})`, and
the API-key / content-type headers. -/
def web_search_request (serper_api_key : String) (query : String) : HttpRequest :=
  { url := "https://google.serper.dev/search"
    payload := pyDumps (Json.obj
      [("q", Json.str (query ++ " AI offerings case studies")), ("num", Json.num 7)])
    headers := [("X-API-KEY", serper_api_key), ("Content-Type", "application/json")] }

/-- The external world of one orchestration run, passed explicitly:
`searchResult i q` is the parsed JSON of the body returned by the `i`-th
orchestrator-level `web_search` call when made with query `q` (`none` when
that body is not valid JSON); `agentResult i input` is the dict returned by
the `i`-th `research_executor.invoke` call; `llmContent prompt` is the
`.content` of the direct `llm.invoke(prompt)` call.  Search and agent calls
are indexed by one shared counter because each processed company makes
exactly one of each. -/
structure Oracle where
  searchResult : Nat → String → Option Json
  agentResult : Nat → String → List (String × Json)
  llmContent : String → String

/-- The search query built for one company in `research_companies`. -/
def searchQuery (company : String) : String :=
  company ++ " AI offerings technology case studies client projects"

/-- The agent instruction built for one company in `research_companies`. -/
def agentInput (company : String) : String :=
  "Comprehensive analysis of " ++ company ++
    "\x27s AI offerings, technological capabilities, and notable case studies. " ++
    "Provide detailed insights into their AI implementations."

/-- The comparison prompt (a triple-quoted f-string in the code, kept with
its literal line breaks and indentation). -/
def comparisonPrompt (companies : List String) (parent_company : String) : String :=
  "Compare the AI capabilities of " ++ String.intercalate ", " companies ++
    " in relation to " ++ parent_company ++ ". \n        Analyze:\n" ++
    "        1. Technological strengths and unique offerings\n" ++
    "        2. Comparative advantages\n" ++
    "        3. Potential competitive positioning\n" ++
    "        Focus specifically on how the other companies compare to " ++
    parent_company ++ "."

/-- Python dict assignment `m[k] = v`: overwrites in place when the key is
present (keeping its position), appends otherwise. -/
def dictAssign (m : List (String × Json)) (k : String) (v : Json) : List (String × Json) :=
  if m.any (fun p => p.1 == k) then
    m.map (fun p => if p.1 == k then (k, v) else p)
  else
    m ++ [(k, v)]

/-- The value stored for one company by the `i`-th processing run:
`{'ai_offerings': research.get('output', ...), 'sources': sources}`. -/
def companyEntry (o : Oracle) (i : Nat) (company : String) : Json :=
  Json.obj
    [("ai_offerings",
      jsonGetD (o.agentResult i (agentInput company)) "output"
        (Json.str "No detailed AI offerings found")),
     ("sources",
      Json.arr ((extract_sources (o.searchResult i (searchQuery company))).map Source.toJson))]

/-- One iteration of the company loop: skip falsy (empty) names, otherwise
run the search + agent calls (consuming one call index) and assign the
record into the result dict. -/
def researchStep (o : Oracle) (acc : Nat × List (String × Json)) (company : String) :
    Nat × List (String × Json) :=
  if company = "" then acc
  else (acc.1 + 1, dictAssign acc.2 company (companyEntry o acc.1 company))

/-- The result dict after the company loop of `research_companies`, together
with the number of processed companies. -/
def research_map (o : Oracle) (companies : List String) (parent_company : String) :
    Nat × List (String × Json) :=
  (companies ++ [parent_company]).foldl (researchStep o) (0, [])

/-- `research_companies(companies, parent_company)`: the company loop over
`companies + [parent_company]`, then the comparison text stored under the
key `'comparative_analysis'`. -/
def research_companies (o : Oracle) (companies : List String) (parent_company : String) :
    List (String × Json) :=
  dictAssign (research_map o companies parent_company).2 "comparative_analysis"
    (Json.str (o.llmContent (comparisonPrompt companies parent_company)))

/-- The sequence of company names actually processed by the loop:
`companies + [parent_company]` with falsy (empty) names skipped. -/
def processedCompanies (companies : List String) (parent_company : String) : List String :=
  (companies ++ [parent_company]).filter (fun c => c != "")

mutual

/-- Python `repr` of a JSON-like value (used by f-string interpolation for
non-string values), modulo `repr`'s escaping of special characters inside
string literals, which nothing in this pipeline exercises. -/
def Json.pyRepr : Json → String
  | .null => "None"
  | .bool true => "True"
  | .bool false => "False"
  | .num n => toString n
  | .str s => "\x27" ++ s ++ "\x27"
  | .arr xs => "[" ++ String.intercalate ", " (Json.pyReprList xs) ++ "]"
  | .obj kvs => "\x7b" ++ String.intercalate ", " (Json.pyReprPairs kvs) ++ "\x7d"

/-- `repr` of the elements of a list. -/
def Json.pyReprList : List Json → List String
  | [] => []
  | x :: xs => Json.pyRepr x :: Json.pyReprList xs

/-- `repr` of the entries of a dict. -/
def Json.pyReprPairs : List (String × Json) → List String
  | [] => []
  | (k, v) :: xs => ("\x27" ++ k ++ "\x27: " ++ Json.pyRepr v) :: Json.pyReprPairs xs

end

/-- Python `str()` as applied by f-string interpolation: a string is used
verbatim, every other value through its `repr`. -/
def Json.pyStr : Json → String
  | .str s => s
  | j => j.pyRepr

/-- The `for source in data.get('sources', [])` loop of
`generate_markdown_report`: one `- **title**: link` bullet per source,
raising (`.error ()`) when `source['title']` or `source['link']` would. -/
def renderSources : List Json → Except Unit String
  | [] => .ok ""
  | s :: rest => do
    let t ← pyIndex s "title"
    let l ← pyIndex s "link"
    let r ← renderSources rest
    .ok ("- **" ++ t.pyStr ++ "**: " ++ l.pyStr ++ "\n" ++ r)

/-- The company loop of `generate_markdown_report`: a section per key other
than `'comparative_analysis'`, in dict (insertion) order.  The unguarded
`data['ai_offerings']` access raises on a value that is not a dict or lacks
the key. -/
def renderCompanies : List (String × Json) → Except Unit String
  | [] => .ok ""
  | (company, data) :: rest =>
    if company = "comparative_analysis" then
      renderCompanies rest
    else do
      let off ← pyIndex data "ai_offerings"
      let srcsVal ← pyGet data "sources" (Json.arr [])
      let elems ← iterElems srcsVal
      let srcTxt ← renderSources elems
      let r ← renderCompanies rest
      .ok ("## " ++ company ++ " AI Offerings\n\n" ++ off.pyStr ++ "\n\n" ++
           "### Research Sources:\n" ++ srcTxt ++ "\n" ++ r)

/-- `generate_markdown_report(research_data)`: heading, the per-company
sections, then the `## Comparative Analysis` section with
`research_data.get('comparative_analysis', 'No comparative analysis available')`. -/
def generate_markdown_report (research_data : List (String × Json)) : Except Unit String := do
  let body ← renderCompanies research_data
  let comp := jsonGetD research_data "comparative_analysis"
    (Json.str "No comparative analysis available")
  .ok ("# AI Offerings and Case Studies Competitive Research Report\n\n" ++ body ++
       "## Comparative Analysis\n\n" ++ comp.pyStr ++ "\n")

/-- What `export_markdown` leaves behind: the file written (name and
contents), if any, and the message printed to standard output. -/
structure ExportResult where
  written : Option (String × String)
  message : String
deriving DecidableEq

/-- `export_markdown(research_data, filename)`.  `writeOk` models whether
opening/writing `filename` succeeds (an `IOError` is raised otherwise) and
`ioErrMsg` the text of that `IOError`.  The report generation happens before
the `try:` block, so its exceptions propagate; the write failure is caught,
printed, and the function still returns normally. -/
def export_markdown (writeOk : String → Bool) (ioErrMsg : String)
    (research_data : List (String × Json))
    (filename : String) : Except Unit ExportResult := do
  let report ← generate_markdown_report research_data
  if writeOk filename then
    .ok ⟨some (filename, report),
         "Markdown report exported successfully to " ++ filename⟩
  else
    .ok ⟨none, "Error exporting Markdown file: " ++ ioErrMsg⟩

/-- If no binding of `kvs` has key `k`, the dict lookup misses. -/
theorem jsonLookup_eq_none (kvs : List (String × Json)) (k : String)
    (h : ∀ p ∈ kvs, p.1 ≠ k) : jsonLookup kvs k = none := by
  unfold jsonLookup
  have hfind : List.find? (fun p => p.1 == k) kvs.reverse = none := by
    apply List.find?_eq_none.mpr
    intro p hp
    simpa using h p (List.mem_reverse.mp hp)
  rw [hfind]
  rfl

/-- If the dict lookup hits, some binding has key `k`. -/
theorem any_key_of_jsonLookup (kvs : List (String × Json)) (k : String) (v : Json)
    (h : jsonLookup kvs k = some v) : kvs.any (fun p => p.1 == k) = true := by
  unfold jsonLookup at h
  rcases Option.map_eq_some'.mp h with ⟨p, hp, -⟩
  have hpred := List.find?_some hp
  exact List.any_eq_true.mpr ⟨p, List.mem_reverse.mp (List.mem_of_find?_eq_some hp), hpred⟩

/-- The link of one `organic` entry, read the way the loop reads it. -/
def entryLink (e : Json) : Json :=
  match e with
  | .obj kvs => jsonGetD kvs "link" (Json.str "")
  | _ => Json.str ""

/-- The Source built from one `organic` entry, with the loop's defaults. -/
def entrySource (e : Json) : Source :=
  match e with
  | .obj kvs =>
    ⟨jsonGetD kvs "title" (Json.str "Untitled"), jsonGetD kvs "link" (Json.str ""),
     jsonGetD kvs "snippet" (Json.str "")⟩
  | _ => ⟨Json.str "Untitled", Json.str "", Json.str ""⟩

/-- Written from the spec's words for the extractor: one Source per entry
whose link has not been seen earlier in the array, preserving first-seen
order, dropping every later entry whose link was already emitted (`seen`
holds the links emitted so far). -/
def specExtractGo : List Json → List Json → List Source
  | [], _ => []
  | e :: rest, seen =>
    if entryLink e ∈ seen then specExtractGo rest seen
    else entrySource e :: specExtractGo rest (entryLink e :: seen)

/-- Written from the spec's words: deduplication-by-link over the whole
`organic` array, starting from no seen links. -/
def specExtract (entries : List Json) : List Source :=
  specExtractGo entries []

/-- A well-formed `organic` entry: an object whose `link` reads as a
non-empty string. -/
def wellFormedEntry (e : Json) : Prop :=
  ∃ kvs l, e = Json.obj kvs ∧ jsonGetD kvs "link" (Json.str "") = Json.str l ∧ l ≠ ""

theorem entrySource_link (e : Json) : (entrySource e).link = entryLink e := by
  cases e <;> rfl

/-- On well-formed entries the extraction loop never raises and agrees with
the spec-side deduplication, for any starting `seen` set and accumulator. -/
theorem extractLoop_eq_spec :
    ∀ (entries : List Json) (seen : List Json) (acc : List Source),
      (∀ e ∈ entries, wellFormedEntry e) →
      extractLoop entries seen acc = .ok (acc ++ specExtractGo entries seen)
  | [], seen, acc, _ => by simp [extractLoop, specExtractGo]
  | e :: rest, seen, acc, h => by
    obtain ⟨kvs, l, rfl, hlink, hne⟩ := h e (List.mem_cons_self e rest)
    have hrest : ∀ x ∈ rest, wellFormedEntry x := fun x hx => h x (List.mem_cons_of_mem _ hx)
    have htruthy : (jsonGetD kvs "link" (Json.str "")).truthy = true := by
      rw [hlink]; simpa [Json.truthy] using hne
    have hhash : (jsonGetD kvs "link" (Json.str "")).hashable = true := by
      rw [hlink]; rfl
    have hstep : extractLoop (Json.obj kvs :: rest) seen acc =
        if (jsonGetD kvs "link" (Json.str "")).truthy then
          if (jsonGetD kvs "link" (Json.str "")).hashable then
            if seen.contains (jsonGetD kvs "link" (Json.str "")) then
              extractLoop rest seen acc
            else
              extractLoop rest (jsonGetD kvs "link" (Json.str "") :: seen)
                (acc ++ [⟨jsonGetD kvs "title" (Json.str "Untitled"),
                          jsonGetD kvs "link" (Json.str ""),
                          jsonGetD kvs "snippet" (Json.str "")⟩])
          else .error ()
        else extractLoop rest seen acc := rfl
    by_cases hc : jsonGetD kvs "link" (Json.str "") ∈ seen
    · have hcb : seen.contains (jsonGetD kvs "link" (Json.str "")) = true :=
        List.elem_eq_true_of_mem hc
      have hspec : specExtractGo (Json.obj kvs :: rest) seen = specExtractGo rest seen := by
        simp [specExtractGo, entryLink, hc]
      rw [hstep, htruthy, hhash, hcb, if_pos rfl, if_pos rfl, if_pos rfl,
        extractLoop_eq_spec rest seen acc hrest, hspec]
    · have hcb : seen.contains (jsonGetD kvs "link" (Json.str "")) = false := by
        cases hx : seen.contains (jsonGetD kvs "link" (Json.str "")) with
        | false => rfl
        | true => exact absurd (List.mem_of_elem_eq_true hx) hc
      have hspec : specExtractGo (Json.obj kvs :: rest) seen =
          entrySource (Json.obj kvs) ::
            specExtractGo rest (entryLink (Json.obj kvs) :: seen) := by
        simp [specExtractGo, entryLink, hc]
      rw [hstep, htruthy, hhash, hcb, if_pos rfl, if_pos rfl,
        if_neg (by simp), extractLoop_eq_spec rest _ _ hrest, hspec]
      simp [entrySource, entryLink, List.append_assoc]

/-- The links emitted by the spec-side deduplication are pairwise distinct
and avoid the starting `seen` set. -/
theorem specExtractGo_nodup :
    ∀ (entries : List Json) (seen : List Json),
      ((specExtractGo entries seen).map Source.link).Nodup ∧
      ∀ s ∈ (specExtractGo entries seen).map Source.link, s ∉ seen
  | [], seen => by simp [specExtractGo]
  | e :: rest, seen => by
    by_cases hc : entryLink e ∈ seen
    · have hspec : specExtractGo (e :: rest) seen = specExtractGo rest seen := by
        simp [specExtractGo, hc]
      rw [hspec]
      exact specExtractGo_nodup rest seen
    · have ih := specExtractGo_nodup rest (entryLink e :: seen)
      have hspec : specExtractGo (e :: rest) seen =
          entrySource e :: specExtractGo rest (entryLink e :: seen) := by
        simp [specExtractGo, hc]
      rw [hspec, List.map_cons, entrySource_link]
      constructor
      · refine List.nodup_cons.mpr ⟨fun hmem => ?_, ih.1⟩
        exact ih.2 _ hmem (List.mem_cons_self _ _)
      · intro s hs hseen
        rcases List.mem_cons.mp hs with rfl | hs'
        · exact hc hseen
        · exact ih.2 s hs' (List.mem_cons_of_mem _ hseen)

example : specExtract
    [Json.obj [("link", Json.str "u1"), ("title", Json.str "T1")],
     Json.obj [("link", Json.str "u1"), ("title", Json.str "T2")],
     Json.obj [("link", Json.str "u2")]] =
    [⟨Json.str "T1", Json.str "u1", Json.str ""⟩,
     ⟨Json.str "Untitled", Json.str "u2", Json.str ""⟩] := by decide

/-- Unfolding of the extraction loop on one `organic` entry that is a dict. -/
theorem extractLoop_cons (kvs : List (String × Json)) (rest seen : List Json)
    (acc : List Source) :
    extractLoop (Json.obj kvs :: rest) seen acc =
      if (jsonGetD kvs "link" (Json.str "")).truthy then
        if (jsonGetD kvs "link" (Json.str "")).hashable then
          if seen.contains (jsonGetD kvs "link" (Json.str "")) then
            extractLoop rest seen acc
          else
            extractLoop rest (jsonGetD kvs "link" (Json.str "") :: seen)
              (acc ++ [⟨jsonGetD kvs "title" (Json.str "Untitled"),
                        jsonGetD kvs "link" (Json.str ""),
                        jsonGetD kvs "snippet" (Json.str "")⟩])
        else .error ()
      else extractLoop rest seen acc := rfl

/-- A `get` with default on a dict that lacks the key yields the default. -/
theorem jsonGetD_eq_default (kvs : List (String × Json)) (k : String) (d : Json)
    (h : ∀ p ∈ kvs, p.1 ≠ k) : jsonGetD kvs k d = d := by
  rw [jsonGetD, jsonLookup_eq_none kvs k h]
  rfl

/-- On a top-level dict whose `organic` lookup yields some value, the body of
`extract_sources` runs the entry loop on that value's elements. -/
theorem extractBody_organic (kvsTop : List (String × Json)) (entries : List Json)
    (horg : jsonLookup kvsTop "organic" = some (Json.arr entries)) :
    extractBody (Json.obj kvsTop) = extractLoop entries [] [] := by
  have hany := any_key_of_jsonLookup kvsTop "organic" (Json.arr entries) horg
  unfold extractBody
  simp [pyContains, hany, pyIndex, horg, iterElems, Bind.bind, Except.bind]

/-- Unfolding of `extract_sources` on a successful parse. -/
theorem extract_sources_some (j : Json) :
    extract_sources (some j) =
      match extractBody j with
      | .ok sources => sources
      | .error _ => [] := rfl

/-- C2: for every well-formed search response — a JSON object whose `organic`
field is an array of entries, each an object carrying a non-empty string
link — `extract_sources` returns exactly one Source per entry whose link was
not seen earlier in the array, in first-seen order (the spec-side
deduplication `specExtract`), dropping later duplicates; the links of the
returned Sources are pairwise distinct. -/
theorem C2_extract_unique_sources (kvsTop : List (String × Json)) (entries : List Json)
    (horg : jsonLookup kvsTop "organic" = some (Json.arr entries))
    (hwf : ∀ e ∈ entries, wellFormedEntry e) :
    extract_sources (some (Json.obj kvsTop)) = specExtract entries ∧
    ((extract_sources (some (Json.obj kvsTop))).map Source.link).Nodup := by
  have hbody : extractBody (Json.obj kvsTop) = .ok (specExtract entries) := by
    rw [extractBody_organic kvsTop entries horg, extractLoop_eq_spec entries [] [] hwf]
    rfl
  have hx : extract_sources (some (Json.obj kvsTop)) = specExtract entries := by
    rw [extract_sources_some, hbody]
  exact ⟨hx, hx ▸ (specExtractGo_nodup entries []).1⟩

/-- Witness for C2 at a concrete three-entry response with one duplicate. -/
theorem C2_extract_unique_sources_witness :
    extract_sources (some (Json.obj [("organic", Json.arr
        [Json.obj [("link", Json.str "u1"), ("title", Json.str "T1")],
         Json.obj [("link", Json.str "u1"), ("title", Json.str "T2")],
         Json.obj [("link", Json.str "u2")]])])) =
      specExtract
        [Json.obj [("link", Json.str "u1"), ("title", Json.str "T1")],
         Json.obj [("link", Json.str "u1"), ("title", Json.str "T2")],
         Json.obj [("link", Json.str "u2")]] ∧
    ((extract_sources (some (Json.obj [("organic", Json.arr
        [Json.obj [("link", Json.str "u1"), ("title", Json.str "T1")],
         Json.obj [("link", Json.str "u1"), ("title", Json.str "T2")],
         Json.obj [("link", Json.str "u2")]])]))).map Source.link).Nodup := by
  refine C2_extract_unique_sources _ _ rfl ?_
  intro e he
  simp only [List.mem_cons, List.not_mem_nil, or_false] at he
  rcases he with rfl | rfl | rfl
  · exact ⟨_, "u1", rfl, rfl, by decide⟩
  · exact ⟨_, "u1", rfl, rfl, by decide⟩
  · exact ⟨_, "u2", rfl, rfl, by decide⟩

/-- C3: a `json.loads` failure yields the empty list, and more generally any
exception raised inside the extraction body is caught and converted to the
empty list rather than propagated. -/
theorem C3_extract_parse_failure_empty :
    extract_sources none = [] ∧
    ∀ j : Json, extractBody j = .error () → extract_sources (some j) = [] := by
  refine ⟨rfl, fun j h => ?_⟩
  rw [extract_sources_some, h]

/-- Witness for C3: a non-dict top-level value makes the body raise, and the
result is still the empty list. -/
theorem C3_extract_parse_failure_empty_witness :
    extract_sources (some (Json.num 5)) = [] :=
  C3_extract_parse_failure_empty.2 (Json.num 5) rfl

/-- C4: the empty object, and every JSON object without an `organic` key,
extract to the empty list. -/
theorem C4_missing_organic_empty :
    extract_sources (some (Json.obj [])) = [] ∧
    ∀ kvs : List (String × Json), (∀ p ∈ kvs, p.1 ≠ "organic") →
      extract_sources (some (Json.obj kvs)) = [] := by
  have hgen : ∀ kvs : List (String × Json), (∀ p ∈ kvs, p.1 ≠ "organic") →
      extract_sources (some (Json.obj kvs)) = [] := by
    intro kvs h
    have hany : kvs.any (fun p => p.1 == "organic") = false := by
      rw [List.any_eq_false]
      intro p hp
      simpa using h p hp
    have hbody : extractBody (Json.obj kvs) = .ok [] := by
      unfold extractBody
      simp [pyContains, hany, Bind.bind, Except.bind, pure, Except.pure]
    rw [extract_sources_some, hbody]
  exact ⟨hgen [] (by simp), hgen⟩

/-- Witness for C4 at an object with one non-`organic` key. -/
theorem C4_missing_organic_empty_witness :
    extract_sources (some (Json.obj [("answerBox", Json.null)])) = [] :=
  C4_missing_organic_empty.2 [("answerBox", Json.null)] (by decide)

/-- C5: per-entry behavior of the extraction loop: an entry whose `link` is
absent or the empty string is skipped entirely; an emitted entry without a
`title` gets title `'Untitled'`; an emitted entry without a `snippet` gets
snippet `''`. -/
theorem C5_entry_defaults (kvs : List (String × Json)) (rest seen : List Json)
    (acc : List Source) :
    (((∀ p ∈ kvs, p.1 ≠ "link") ∨ jsonGetD kvs "link" (Json.str "") = Json.str "") →
      extractLoop (Json.obj kvs :: rest) seen acc = extractLoop rest seen acc) ∧
    (∀ l : String, (∀ p ∈ kvs, p.1 ≠ "title") →
      jsonGetD kvs "link" (Json.str "") = Json.str l → l ≠ "" →
      seen.contains (Json.str l) = false →
      extractLoop (Json.obj kvs :: rest) seen acc =
        extractLoop rest (Json.str l :: seen)
          (acc ++ [⟨Json.str "Untitled", Json.str l,
                    jsonGetD kvs "snippet" (Json.str "")⟩])) ∧
    (∀ l : String, (∀ p ∈ kvs, p.1 ≠ "snippet") →
      jsonGetD kvs "link" (Json.str "") = Json.str l → l ≠ "" →
      seen.contains (Json.str l) = false →
      extractLoop (Json.obj kvs :: rest) seen acc =
        extractLoop rest (Json.str l :: seen)
          (acc ++ [⟨jsonGetD kvs "title" (Json.str "Untitled"), Json.str l,
                    Json.str ""⟩])) := by
  refine ⟨fun h => ?_, fun l htitle hlink hne hcb => ?_, fun l hsnip hlink hne hcb => ?_⟩
  · have hempty : jsonGetD kvs "link" (Json.str "") = Json.str "" := by
      rcases h with h | h
      · exact jsonGetD_eq_default kvs "link" (Json.str "") h
      · exact h
    rw [extractLoop_cons, hempty]
    rfl
  · have htruthy : (jsonGetD kvs "link" (Json.str "")).truthy = true := by
      rw [hlink]; simpa [Json.truthy] using hne
    have hhash : (jsonGetD kvs "link" (Json.str "")).hashable = true := by
      rw [hlink]; rfl
    rw [extractLoop_cons, htruthy, hhash, hlink, hcb, if_pos rfl, if_pos rfl,
      if_neg (by simp), jsonGetD_eq_default kvs "title" (Json.str "Untitled") htitle]
  · have htruthy : (jsonGetD kvs "link" (Json.str "")).truthy = true := by
      rw [hlink]; simpa [Json.truthy] using hne
    have hhash : (jsonGetD kvs "link" (Json.str "")).hashable = true := by
      rw [hlink]; rfl
    rw [extractLoop_cons, htruthy, hhash, hlink, hcb, if_pos rfl, if_pos rfl,
      if_neg (by simp), jsonGetD_eq_default kvs "snippet" (Json.str "") hsnip]

/-- Witness for C5 at concrete one-entry inputs exercising each clause. -/
theorem C5_entry_defaults_witness :
    (extractLoop [Json.obj [("title", Json.str "T")]] [] [] = extractLoop [] [] []) ∧
    (extractLoop [Json.obj [("link", Json.str "u")]] [] [] =
      extractLoop [] [Json.str "u"]
        ([] ++ [⟨Json.str "Untitled", Json.str "u",
                 jsonGetD [("link", Json.str "u")] "snippet" (Json.str "")⟩])) ∧
    (extractLoop [Json.obj [("link", Json.str "u"), ("title", Json.str "T")]] [] [] =
      extractLoop [] [Json.str "u"]
        ([] ++ [⟨jsonGetD [("link", Json.str "u"), ("title", Json.str "T")] "title"
                   (Json.str "Untitled"), Json.str "u", Json.str ""⟩])) :=
  ⟨(C5_entry_defaults _ _ _ _).1 (Or.inl (by decide)),
   (C5_entry_defaults _ _ _ _).2.1 "u" (by decide) rfl (by decide) rfl,
   (C5_entry_defaults _ _ _ _).2.2 "u" (by decide) rfl (by decide) rfl⟩

/-- Dict lookup distributes over append (later entries win). -/
theorem jsonLookup_append (xs ys : List (String × Json)) (k : String) :
    jsonLookup (xs ++ ys) k = (jsonLookup ys k).or (jsonLookup xs k) := by
  unfold jsonLookup
  rw [List.reverse_append, List.find?_append]
  cases List.find? (fun p => p.1 == k) ys.reverse <;> simp

/-- Dict lookup on a cons cell: the tail wins over the head. -/
theorem jsonLookup_cons (q : String × Json) (m : List (String × Json)) (k : String) :
    jsonLookup (q :: m) k =
      (jsonLookup m k).or (if q.1 == k then some q.2 else none) := by
  have hq : q :: m = [q] ++ m := rfl
  rw [hq, jsonLookup_append]
  congr 1
  cases h : (q.1 == k) <;> simp [jsonLookup, h]

/-- A `dict.any`-style key test that fails means no entry has the key. -/
theorem no_key_of_any_eq_false (m : List (String × Json)) (k : String)
    (h : m.any (fun p => p.1 == k) = false) : ∀ p ∈ m, p.1 ≠ k := by
  rw [List.any_eq_false] at h
  intro p hp
  simpa using h p hp

/-- Overwriting a key that is absent everywhere leaves the dict unchanged. -/
theorem map_assign_id (m : List (String × Json)) (k : String) (v : Json)
    (h : m.any (fun p => p.1 == k) = false) :
    m.map (fun p => if p.1 == k then (k, v) else p) = m := by
  induction m with
  | nil => rfl
  | cons p m ih =>
    simp only [List.any_cons, Bool.or_eq_false_iff] at h
    rw [List.map_cons, if_neg (by simp [h.1]), ih h.2]

/-- After `m[k] = v`, looking up `k` yields `v`. -/
theorem jsonLookup_dictAssign_self (m : List (String × Json)) (k : String) (v : Json) :
    jsonLookup (dictAssign m k v) k = some v := by
  unfold dictAssign
  by_cases h : m.any (fun p => p.1 == k) = true
  · rw [if_pos h]
    induction m with
    | nil => simp at h
    | cons p m ih =>
      rw [List.map_cons, jsonLookup_cons]
      by_cases hm : m.any (fun p => p.1 == k) = true
      · rw [ih hm]
        rfl
      · have hanyf : m.any (fun q => q.1 == k) = false := Bool.eq_false_iff.mpr hm
        have hp : (p.1 == k) = true := by
          have hcons : (p :: m).any (fun q => q.1 == k) =
              ((p.1 == k) || m.any (fun q => q.1 == k)) := rfl
          rw [hcons, hanyf, Bool.or_false] at h
          exact h
        have hmnone : jsonLookup (m.map (fun p => if p.1 == k then (k, v) else p)) k = none := by
          rw [map_assign_id m k v (Bool.eq_false_iff.mpr hm)]
          exact jsonLookup_eq_none m k (no_key_of_any_eq_false m k (Bool.eq_false_iff.mpr hm))
        rw [hmnone, if_pos hp, Option.none_or]
        simp
  · rw [if_neg h, jsonLookup_append]
    simp [jsonLookup]

/-- Overwriting key `k` does not change the lookup of any other key. -/
theorem jsonLookup_map_assign_other (m : List (String × Json)) (k k' : String) (v : Json)
    (hne : k' ≠ k) :
    jsonLookup (m.map (fun p => if p.1 == k then (k, v) else p)) k' = jsonLookup m k' := by
  induction m with
  | nil => rfl
  | cons p m ih =>
    rw [List.map_cons, jsonLookup_cons, jsonLookup_cons, ih]
    congr 1
    by_cases hp : (p.1 == k) = true
    · have hp1 : p.1 = k := by simpa using hp
      rw [if_pos hp]
      have h1 : ((k, v).1 == k') = false := by simpa using fun h => hne h.symm
      have h2 : (p.1 == k') = false := by simp [hp1]; exact fun h => hne h.symm
      rw [h1, h2]
      rfl
    · rw [if_neg hp]

/-- Assigning `m[k] = v` does not change the lookup of any other key. -/
theorem jsonLookup_dictAssign_other (m : List (String × Json)) (k k' : String) (v : Json)
    (hne : k' ≠ k) :
    jsonLookup (dictAssign m k v) k' = jsonLookup m k' := by
  unfold dictAssign
  by_cases h : m.any (fun p => p.1 == k) = true
  · rw [if_pos h]
    exact jsonLookup_map_assign_other m k k' v hne
  · rw [if_neg h, jsonLookup_append]
    have hsingle : jsonLookup [(k, v)] k' = none := by
      have : (k == k') = false := by simpa using fun h => hne h.symm
      simp [jsonLookup, this]
    rw [hsingle, Option.none_or]

/-- Every entry of `dictAssign m k v` is an entry of `m` or the new binding. -/
theorem mem_dictAssign (m : List (String × Json)) (k : String) (v : Json)
    (k' : String) (v' : Json) (h : (k', v') ∈ dictAssign m k v) :
    (k', v') ∈ m ∨ (k' = k ∧ v' = v) := by
  unfold dictAssign at h
  by_cases ha : m.any (fun p => p.1 == k) = true
  · rw [if_pos ha] at h
    rcases List.mem_map.mp h with ⟨p, hp, hfp⟩
    by_cases hpk : (p.1 == k) = true
    · rw [if_pos hpk] at hfp
      injection hfp with h1 h2
      exact Or.inr ⟨h1.symm, h2.symm⟩
    · rw [if_neg hpk] at hfp
      exact Or.inl (hfp ▸ hp)
  · rw [if_neg ha] at h
    rcases List.mem_append.mp h with h | h
    · exact Or.inl h
    · have : (k', v') = (k, v) := by simpa using h
      injection this with h1 h2
      exact Or.inr ⟨h1, h2⟩

/-- A successful dict lookup comes from an entry of the dict. -/
theorem mem_of_jsonLookup (m : List (String × Json)) (k : String) (v : Json)
    (h : jsonLookup m k = some v) : (k, v) ∈ m := by
  unfold jsonLookup at h
  rcases Option.map_eq_some'.mp h with ⟨p, hp, hv⟩
  have hpred := List.find?_some hp
  have hmem := List.mem_reverse.mp (List.mem_of_find?_eq_some hp)
  have hk : p.1 = k := by simpa using hpred
  have hpkv : p = (k, v) := by
    cases p
    simp_all
  rw [← hpkv]
  exact hmem

/-- Every value stored by the company loop is a `companyEntry` record. -/
theorem research_fold_shape (o : Oracle) :
    ∀ (l : List String) (acc : Nat × List (String × Json)),
      (∀ k v, (k, v) ∈ acc.2 → ∃ i, v = companyEntry o i k) →
      ∀ k v, (k, v) ∈ (l.foldl (researchStep o) acc).2 → ∃ i, v = companyEntry o i k
  | [], _, hacc => hacc
  | c :: l, acc, hacc => by
    rw [List.foldl_cons]
    apply research_fold_shape o l
    intro k v hmem
    unfold researchStep at hmem
    by_cases hc : c = ""
    · rw [if_pos hc] at hmem
      exact hacc k v hmem
    · rw [if_neg hc] at hmem
      rcases mem_dictAssign _ _ _ _ _ hmem with h | ⟨rfl, rfl⟩
      · exact hacc k v h
      · exact ⟨acc.1, rfl⟩

/-- A processed (truthy) company name ends up as a key of the loop's dict,
and keys present before the loop stay present. -/
theorem research_fold_present (o : Oracle) :
    ∀ (l : List String) (acc : Nat × List (String × Json)) (c : String),
      (c ∈ l ∧ c ≠ "") ∨ (∃ v, jsonLookup acc.2 c = some v) →
      ∃ v, jsonLookup (l.foldl (researchStep o) acc).2 c = some v
  | [], acc, c, h => by
    rcases h with ⟨hc, _⟩ | h
    · cases hc
    · exact h
  | c0 :: l, acc, c, h => by
    rw [List.foldl_cons]
    apply research_fold_present o l
    rcases h with ⟨hmem, hne⟩ | ⟨v, hv⟩
    · rcases List.mem_cons.mp hmem with rfl | hmem'
      · right
        unfold researchStep
        rw [if_neg hne]
        exact ⟨_, jsonLookup_dictAssign_self _ _ _⟩
      · exact Or.inl ⟨hmem', hne⟩
    · right
      unfold researchStep
      by_cases hc0 : c0 = ""
      · rw [if_pos hc0]
        exact ⟨v, hv⟩
      · rw [if_neg hc0]
        by_cases hcc : c = c0
        · subst hcc
          exact ⟨_, jsonLookup_dictAssign_self _ _ _⟩
        · exact ⟨v, by rw [jsonLookup_dictAssign_other _ _ _ _ hcc]; exact hv⟩

/-- The company loop is the plain indexed fold over the processed (truthy)
names: falsy names are skipped without consuming a call index. -/
theorem foldl_researchStep_eq_filter (o : Oracle) :
    ∀ (l : List String) (acc : Nat × List (String × Json)),
      l.foldl (researchStep o) acc =
        (l.filter (fun c => c != "")).foldl
          (fun a c => (a.1 + 1, dictAssign a.2 c (companyEntry o a.1 c))) acc
  | [], _ => rfl
  | c :: l, acc => by
    by_cases hc : c = ""
    · subst hc
      rw [List.foldl_cons]
      have h1 : researchStep o acc "" = acc := rfl
      have h2 : List.filter (fun c => c != "") ("" :: l) = l.filter (fun c => c != "") := by
        simp [List.filter_cons]
      rw [h1, h2]
      exact foldl_researchStep_eq_filter o l acc
    · rw [List.foldl_cons]
      have h1 : researchStep o acc c =
          (acc.1 + 1, dictAssign acc.2 c (companyEntry o acc.1 c)) := by
        unfold researchStep
        rw [if_neg hc]
      have h2 : List.filter (fun c => c != "") (c :: l) =
          c :: l.filter (fun c => c != "") := by
        simp [List.filter_cons, hc]
      rw [h1, h2, List.foldl_cons]
      exact foldl_researchStep_eq_filter o l _

/-- A concrete external world used to instantiate witnesses: all searches
fail to parse, the agent returns an empty dict, the LLM returns `""`. -/
def trivialOracle : Oracle :=
  ⟨fun _ _ => none, fun _ _ => [], fun _ => ""⟩

/-- C1: the company loop of `research_companies` processes exactly
`companies + [parent_company]` with falsy entries skipped and duplicates
kept; on `companies=["A","B"]`, `parent_company="B"` the processed sequence
is `["A","B","B"]`, the returned mapping has exactly the keys `A`, `B` and
`comparative_analysis`, and `B`'s record is the one built by the second
processing run of `B` (call index 2), the first (index 1) being
overwritten. -/
theorem C1_duplicate_processing_overwrite (o : Oracle) :
    (∀ (cs : List String) (p : String),
        research_map o cs p = (processedCompanies cs p).foldl
          (fun a c => (a.1 + 1, dictAssign a.2 c (companyEntry o a.1 c))) (0, [])) ∧
    processedCompanies ["A", "B"] "B" = ["A", "B", "B"] ∧
    (research_companies o ["A", "B"] "B").map Prod.fst =
      ["A", "B", "comparative_analysis"] ∧
    jsonLookup (research_companies o ["A", "B"] "B") "B" =
      some (companyEntry o 2 "B") := by
  refine ⟨fun cs p => foldl_researchStep_eq_filter o (cs ++ [p]) (0, []), by decide, rfl, rfl⟩

/-- C9: when the literal name `comparative_analysis` is among the processed
companies, the loop first stores a research record under that key and the
final assignment unconditionally overwrites it with the comparison text, so
the returned mapping maps `comparative_analysis` to the comparison string. -/
theorem C9_sentinel_key_overwritten (o : Oracle) (cs : List String) (p : String)
    (h : "comparative_analysis" ∈ processedCompanies cs p) :
    (∃ i, jsonLookup (research_map o cs p).2 "comparative_analysis" =
        some (companyEntry o i "comparative_analysis")) ∧
    jsonLookup (research_companies o cs p) "comparative_analysis" =
      some (Json.str (o.llmContent (comparisonPrompt cs p))) := by
  constructor
  · have hmem : "comparative_analysis" ∈ cs ++ [p] := List.mem_of_mem_filter h
    obtain ⟨v, hv⟩ := research_fold_present o (cs ++ [p]) (0, []) "comparative_analysis"
      (Or.inl ⟨hmem, by decide⟩)
    obtain ⟨i, rfl⟩ := research_fold_shape o (cs ++ [p]) (0, [])
      (by intro k v hk; cases hk) _ _ (mem_of_jsonLookup _ _ _ hv)
    exact ⟨i, hv⟩
  · exact jsonLookup_dictAssign_self _ _ _

/-- Witness for C9 with `companies = ["comparative_analysis"]`. -/
theorem C9_sentinel_key_overwritten_witness :
    (∃ i, jsonLookup (research_map trivialOracle ["comparative_analysis"] "P").2
        "comparative_analysis" =
        some (companyEntry trivialOracle i "comparative_analysis")) ∧
    jsonLookup (research_companies trivialOracle ["comparative_analysis"] "P")
        "comparative_analysis" =
      some (Json.str (trivialOracle.llmContent
        (comparisonPrompt ["comparative_analysis"] "P"))) :=
  C9_sentinel_key_overwritten trivialOracle ["comparative_analysis"] "P" (by decide)

/-- Occurrence of `sub` as a contiguous substring of `s`. -/
def strOccurs (sub s : String) : Prop :=
  ∃ a b, s = a ++ sub ++ b

theorem strOccurs_appendl (sub x y : String) (h : strOccurs sub x) :
    strOccurs sub (x ++ y) := by
  obtain ⟨a, b, rfl⟩ := h
  exact ⟨a, b ++ y, by rw [String.append_assoc (a ++ sub) b y]⟩

theorem strOccurs_appendr (sub x y : String) (h : strOccurs sub y) :
    strOccurs sub (x ++ y) := by
  obtain ⟨a, b, rfl⟩ := h
  exact ⟨x ++ a, b, by simp [String.append_assoc]⟩

/-- C6: every report string actually produced contains the fixed top-level
heading and a `## Comparative Analysis` section; when the input mapping has
no `comparative_analysis` key, the fixed fallback text appears as well. -/
theorem C6_report_heading_and_fallback (research_data : List (String × Json)) (s : String)
    (h : generate_markdown_report research_data = .ok s) :
    strOccurs "# AI Offerings and Case Studies Competitive Research Report" s ∧
    strOccurs "## Comparative Analysis" s ∧
    ((∀ p ∈ research_data, p.1 ≠ "comparative_analysis") →
      strOccurs "No comparative analysis available" s) := by
  unfold generate_markdown_report at h
  cases hb : renderCompanies research_data with
  | error e =>
    rw [hb] at h
    simp [Bind.bind, Except.bind] at h
  | ok body =>
    rw [hb] at h
    simp only [Bind.bind, Except.bind, Except.ok.injEq] at h
    subst h
    refine ⟨?_, ?_, ?_⟩
    · exact strOccurs_appendl _ _ _ (strOccurs_appendl _ _ _ (strOccurs_appendl _ _ _
        (strOccurs_appendl _ _ _ ⟨"", "\n\n", by decide⟩)))
    · exact strOccurs_appendl _ _ _ (strOccurs_appendl _ _ _ (strOccurs_appendr _ _ _
        ⟨"", "\n\n", by decide⟩))
    · intro hno
      rw [jsonGetD_eq_default _ _ _ hno]
      exact strOccurs_appendl _ _ _ (strOccurs_appendr _ _ _ ⟨"", "", by decide⟩)

/-- Witness for C6 on the empty mapping. -/
theorem C6_report_heading_and_fallback_witness :
    strOccurs "# AI Offerings and Case Studies Competitive Research Report"
      ("# AI Offerings and Case Studies Competitive Research Report\n\n" ++
       "## Comparative Analysis\n\nNo comparative analysis available\n") ∧
    strOccurs "## Comparative Analysis"
      ("# AI Offerings and Case Studies Competitive Research Report\n\n" ++
       "## Comparative Analysis\n\nNo comparative analysis available\n") ∧
    strOccurs "No comparative analysis available"
      ("# AI Offerings and Case Studies Competitive Research Report\n\n" ++
       "## Comparative Analysis\n\nNo comparative analysis available\n") :=
  ⟨(C6_report_heading_and_fallback [] _ rfl).1,
   (C6_report_heading_and_fallback [] _ rfl).2.1,
   (C6_report_heading_and_fallback [] _ rfl).2.2 (by decide)⟩

/-- C7: when the target path is unwritable, `export_markdown` catches the
write failure, prints the error message, creates no file, and returns
normally — exactly as it returns normally in the success case. -/
theorem C7_export_write_failure (writeOk : String → Bool) (ioErrMsg : String)
    (research_data : List (String × Json)) (filename : String) (report : String)
    (hgen : generate_markdown_report research_data = .ok report)
    (hfail : writeOk filename = false) :
    export_markdown writeOk ioErrMsg research_data filename =
      .ok ⟨none, "Error exporting Markdown file: " ++ ioErrMsg⟩ := by
  unfold export_markdown
  simp [hgen, hfail, Bind.bind, Except.bind]

/-- Witness for C7 at the default filename with an always-failing writer. -/
theorem C7_export_write_failure_witness :
    export_markdown (fun _ => false) "Permission denied" [] "ai_competitive_research.md" =
      .ok ⟨none, "Error exporting Markdown file: " ++ "Permission denied"⟩ :=
  C7_export_write_failure (fun _ => false) "Permission denied" [] "ai_competitive_research.md"
    ("# AI Offerings and Case Studies Competitive Research Report\n\n" ++
     "## Comparative Analysis\n\nNo comparative analysis available\n")
    rfl rfl

/-- C8: for every query, the body of the search request is the JSON
serialization of `{"q": query + " AI offerings case studies", "num": 7}`;
at a concrete query the serialized body is shown literally. -/
theorem C8_search_request_body (serper_api_key query : String) :
    (web_search_request serper_api_key query).payload =
      pyDumps (Json.obj [("q", Json.str (query ++ " AI offerings case studies")),
                         ("num", Json.num 7)]) ∧
    (web_search_request serper_api_key "Acme").payload =
      "\x7b\"q\": \"Acme AI offerings case studies\", \"num\": 7\x7d" :=
  ⟨rfl, rfl⟩

/-- A research value that makes the report writer's unguarded
`data['ai_offerings']` access raise: a plain string, or a dict without the
`ai_offerings` key. -/
def badValue (v : Json) : Prop :=
  (∃ s, v = Json.str s) ∨ (∃ kvs, v = Json.obj kvs ∧ ∀ p ∈ kvs, p.1 ≠ "ai_offerings")

/-- The value shape `research_companies` stores for every company key. -/
def companyShaped (v : Json) : Prop :=
  ∃ off srcs, v = Json.obj [("ai_offerings", off),
    ("sources", Json.arr (List.map Source.toJson srcs))]

/-- Rendering the source list of a company record never raises. -/
theorem renderSources_ok :
    ∀ srcs : List Source, ∃ s, renderSources (srcs.map Source.toJson) = .ok s
  | [] => ⟨"", rfl⟩
  | src :: srcs => by
    obtain ⟨s, hs⟩ := renderSources_ok srcs
    have ht : pyIndex (Source.toJson src) "title" = .ok src.title := rfl
    have hl : pyIndex (Source.toJson src) "link" = .ok src.link := rfl
    refine ⟨"- **" ++ src.title.pyStr ++ "**: " ++ src.link.pyStr ++ "\n" ++ s, ?_⟩
    show renderSources (Source.toJson src :: srcs.map Source.toJson) = _
    unfold renderSources
    simp [ht, hl, hs, Bind.bind, Except.bind]

/-- Rendering a mapping whose non-sentinel values are all company-shaped
never raises. -/
theorem renderCompanies_ok :
    ∀ m : List (String × Json),
      (∀ k v, (k, v) ∈ m → k ≠ "comparative_analysis" → companyShaped v) →
      ∃ s, renderCompanies m = .ok s
  | [], _ => ⟨"", rfl⟩
  | (k0, v0) :: rest, h => by
    obtain ⟨r, hr⟩ := renderCompanies_ok rest
      (fun k v hm hk => h k v (List.mem_cons_of_mem _ hm) hk)
    by_cases hk0 : k0 = "comparative_analysis"
    · refine ⟨r, ?_⟩
      unfold renderCompanies
      rw [if_pos hk0]
      exact hr
    · obtain ⟨off, srcs, rfl⟩ := h k0 v0 (List.mem_cons_self _ _) hk0
      obtain ⟨st, hst⟩ := renderSources_ok srcs
      have hoff : pyIndex (Json.obj [("ai_offerings", off),
          ("sources", Json.arr (List.map Source.toJson srcs))]) "ai_offerings" = .ok off := rfl
      have hsv : pyGet (Json.obj [("ai_offerings", off),
          ("sources", Json.arr (List.map Source.toJson srcs))]) "sources" (Json.arr []) =
          .ok (Json.arr (List.map Source.toJson srcs)) := rfl
      have hit : iterElems (Json.arr (List.map Source.toJson srcs)) =
          .ok (List.map Source.toJson srcs) := rfl
      refine ⟨"## " ++ k0 ++ " AI Offerings\n\n" ++ off.pyStr ++ "\n\n" ++
        "### Research Sources:\n" ++ st ++ "\n" ++ r, ?_⟩
      unfold renderCompanies
      rw [if_neg hk0]
      simp [hoff, hsv, hit, hst, hr, Bind.bind, Except.bind]

/-- A bad non-sentinel value anywhere in the mapping makes the company loop
of the report writer raise. -/
theorem renderCompanies_error_of_bad :
    ∀ (m : List (String × Json)) (k : String) (v : Json),
      (k, v) ∈ m → k ≠ "comparative_analysis" → badValue v →
      renderCompanies m = .error ()
  | [], k, v, hm, _, _ => absurd hm (List.not_mem_nil _)
  | (k0, v0) :: rest, k, v, hm, hk, hbad => by
    rcases List.mem_cons.mp hm with heq | hm'
    · have hkv : k = k0 ∧ v = v0 := by
        injection heq with h1 h2
        exact ⟨h1, h2⟩
      obtain ⟨rfl, rfl⟩ := hkv
      have hpy : pyIndex v "ai_offerings" = .error () := by
        rcases hbad with ⟨s, rfl⟩ | ⟨kvs, rfl, hno⟩
        · rfl
        · have hnone := jsonLookup_eq_none kvs "ai_offerings" hno
          simp [pyIndex, hnone]
      unfold renderCompanies
      rw [if_neg hk]
      simp [hpy, Bind.bind, Except.bind]
    · have ih := renderCompanies_error_of_bad rest k v hm' hk hbad
      by_cases hk0 : k0 = "comparative_analysis"
      · unfold renderCompanies
        rw [if_pos hk0]
        exact ih
      · unfold renderCompanies
        rw [if_neg hk0]
        cases hoff : pyIndex v0 "ai_offerings" with
        | error e => simp [hoff, Bind.bind, Except.bind]
        | ok off =>
          cases hsv : pyGet v0 "sources" (Json.arr []) with
          | error e => simp [hoff, hsv, Bind.bind, Except.bind]
          | ok sv =>
            cases hit : iterElems sv with
            | error e => simp [hoff, hsv, hit, Bind.bind, Except.bind]
            | ok elems =>
              cases hrs : renderSources elems with
              | error e => simp [hoff, hsv, hit, hrs, Bind.bind, Except.bind]
              | ok st => simp [hoff, hsv, hit, hrs, ih, Bind.bind, Except.bind]

/-- Every non-sentinel value of a `research_companies` result is
company-shaped. -/
theorem research_companies_values_shaped (o : Oracle) (cs : List String) (p : String) :
    ∀ k v, (k, v) ∈ research_companies o cs p → k ≠ "comparative_analysis" →
      companyShaped v := by
  intro k v hm hk
  unfold research_companies at hm
  rcases mem_dictAssign _ _ _ _ _ hm with hm' | ⟨rfl, _⟩
  · obtain ⟨i, rfl⟩ := research_fold_shape o (cs ++ [p]) (0, [])
      (by intro k v hx; cases hx) k v hm'
    exact ⟨_, _, rfl⟩
  · exact absurd rfl hk

/-- C10: the report writer's unguarded `data['ai_offerings']` access makes it
fault on any mapping holding a non-sentinel value that is a plain string or a
dict lacking that key; every mapping `research_companies` returns satisfies
the access's precondition, so the report writer never faults on it. -/
theorem C10_report_access_safety (o : Oracle) (cs : List String) (p : String) :
    (∀ (m : List (String × Json)) (k : String) (v : Json),
        (k, v) ∈ m → k ≠ "comparative_analysis" → badValue v →
        generate_markdown_report m = .error ()) ∧
    ∃ s, generate_markdown_report (research_companies o cs p) = .ok s := by
  constructor
  · intro m k v hm hk hbad
    have hren := renderCompanies_error_of_bad m k v hm hk hbad
    unfold generate_markdown_report
    simp [hren, Bind.bind, Except.bind]
  · obtain ⟨body, hbody⟩ := renderCompanies_ok (research_companies o cs p)
      (research_companies_values_shaped o cs p)
    have hgen : generate_markdown_report (research_companies o cs p) =
        .ok ("# AI Offerings and Case Studies Competitive Research Report\n\n" ++ body ++
             "## Comparative Analysis\n\n" ++
             (jsonGetD (research_companies o cs p) "comparative_analysis"
               (Json.str "No comparative analysis available")).pyStr ++ "\n") := by
      unfold generate_markdown_report
      simp [hbody, Bind.bind, Except.bind]
    exact ⟨_, hgen⟩

/-- Witness for C10: a string-valued company entry makes the writer fault;
a real research result renders without fault. -/
theorem C10_report_access_safety_witness :
    generate_markdown_report [("X", Json.str "oops")] = Except.error () ∧
    ∃ s, generate_markdown_report (research_companies trivialOracle [] "P") = Except.ok s :=
  ⟨(C10_report_access_safety trivialOracle [] "P").1 [("X", Json.str "oops")] "X"
      (Json.str "oops") (List.mem_singleton.mpr rfl) (by decide) (Or.inl ⟨"oops", rfl⟩),
   (C10_report_access_safety trivialOracle [] "P").2⟩
